import Mathlib

/-!
Verification of the AED-EEND corpus-preparation utilities.

The repository consists of small Python scripts that convert meeting
annotations into Kaldi-style tables and compute sanity statistics.
This file gives a shallow embedding of those scripts:

* `read_segments` / `read_segments_lines` embed `read_segments` from
  `egs/ami/v1/local/plot_dataset_stats.py`;
* `ami_to_rttm` embeds the per-segment filtering and emission loop of
  `egs/ami/v1/local/ami_to_rttm.py` (the emitted intervals);
* `icsi_to_rttm` embeds the per-turn loop of
  `egs/icsi/v1/local/icsi_to_rttm.py`;
* `get_speakers_from_file`, `map_all_speakers_to_meetings`,
  `analyze_overlap`, `calculate_overlap_main` embed
  `egs/icsi/v1/local/calculate_overlap.py`;
* `get_speakers`, `validate_split_main` embed
  `egs/icsi/v1/local/validate_split.py`;
* `format_hours` embeds `format_hours` of `plot_dataset_stats.py`, with
  `formatFix2` modelling Python's fixed two-decimal rendering;
* the temporal overlap sweep (`overlap_sweep`, `aggregate_report`) is
  modelled from the specification, whose engine is not among the
  provided sources.

File contents (the Python files read lines and stream them) are modelled
as `Option (List ..)`: `none` is a missing/unreadable file, `some lines`
a readable file whose lines are already split into whitespace fields.
Python `float` time values are modelled as rationals `ℚ`.
-/

/-! ### Numeric-literal parsing (model of Python `float(...)` on time fields) -/

/-- Value of a digit string, most significant first (model of how a decimal
literal denotes a number; used by `parseUnsigned?`). -/
def digitsToNat (ds : List Char) : ℕ :=
  ds.foldl (fun acc c => acc * 10 + (c.toNat - 48)) 0

/-- Parses an unsigned decimal literal `digits[.digits]` with at least one
digit, the shape of time fields accepted by Python's `float`. -/
def parseUnsigned? (cs : List Char) : Option ℚ :=
  let intPart := cs.takeWhile Char.isDigit
  let rest := cs.dropWhile Char.isDigit
  match rest with
  | [] => if intPart.isEmpty then none else some (digitsToNat intPart : ℚ)
  | '.' :: frac =>
      if frac.all Char.isDigit ∧ (intPart ≠ [] ∨ frac ≠ []) then
        some ((digitsToNat intPart : ℚ) + (digitsToNat frac : ℚ) / (10 : ℚ) ^ frac.length)
      else none
  | _ => none

/-- Model of Python `float(s)` on a time-field token: an optional sign
followed by an unsigned decimal literal; `none` when `float` would raise
`ValueError`. -/
def parseFloat? (s : String) : Option ℚ :=
  match s.data with
  | '-' :: rest => (parseUnsigned? rest).map (fun q => -q)
  | '+' :: rest => parseUnsigned? rest
  | cs => parseUnsigned? cs

/-! ### `read_segments` (plot_dataset_stats.py, lines 61-84) -/

/-- One iteration of the `read_segments` loop: a line must split into
exactly four fields with numeric times, else it is skipped with
`continue` (`none`). -/
def parseSegLine (parts : List String) : Option (String × String × ℚ × ℚ) :=
  match parts with
  | [utt_id, reco_id, start_str, end_str] =>
    match parseFloat? start_str, parseFloat? end_str with
    | some s, some e => some (utt_id, reco_id, s, e)
    | _, _ => none
  | _ => none

/-- Loop of `read_segments`: valid lines are appended in order. -/
def read_segments_lines (lines : List (List String)) : List (String × String × ℚ × ℚ) :=
  lines.filterMap parseSegLine

/-- `read_segments(path)`: `if not os.path.isfile(path): return segments`
returns the empty list when the file is missing, otherwise runs the loop. -/
def read_segments (file : Option (List (List String))) : List (String × String × ℚ × ℚ) :=
  match file with
  | none => []
  | some lines => read_segments_lines lines

/-! ### `ami_to_rttm` (ami_to_rttm.py): intervals emitted per segment -/

/-- Per-segment loop of `ami_to_rttm`: each segment carries resolved
start/end time attributes (`none` when every candidate attribute name is
missing); a segment is skipped when an attribute is missing, a time does
not parse, `end_time <= start_time`, or `speaker_id is None`; otherwise
its `(start_time, end_time)` interval is emitted. -/
def amiSegInterval? (speaker_id : Option String)
    (seg : Option String × Option String) : Option (ℚ × ℚ) :=
  match seg with
  | (some ss, some es) =>
    match parseFloat? ss, parseFloat? es with
    | some start_time, some end_time =>
      if end_time ≤ start_time then none
      else
        match speaker_id with
        | none => none
        | some _ => some (start_time, end_time)
    | _, _ => none
  | _ => none

/-- Loop of `ami_to_rttm` over its candidate segment elements. -/
def ami_to_rttm (speaker_id : Option String)
    (segs : List (Option String × Option String)) : List (ℚ × ℚ) :=
  segs.filterMap (amiSegInterval? speaker_id)

/-! ### `icsi_to_rttm` (icsi_to_rttm.py): intervals emitted per turn -/

/-- One `Turn` element: XML attributes are `none` when absent. -/
structure Turn where
  startTime : Option String
  endTime : Option String
  speaker : Option String
deriving DecidableEq

/-- Python truthiness of an optional string: `None` and `""` are falsy,
which is what `all([start_time_str, endTime_str, speaker_id])` tests. -/
def truthy : Option String → Bool
  | none => false
  | some s => !(s == "")

/-- Per-turn loop of `icsi_to_rttm`: a turn is skipped when an attribute
is missing (Python-falsy), a time does not parse, or `duration <= 0`;
otherwise its `(start_time, end_time)` interval is emitted. -/
def icsiTurnInterval? (t : Turn) : Option (ℚ × ℚ) :=
  if truthy t.startTime && truthy t.endTime && truthy t.speaker then
    match t.startTime, t.endTime with
    | some ss, some es =>
      match parseFloat? ss, parseFloat? es with
      | some start_time, some end_time =>
        if end_time - start_time ≤ 0 then none
        else some (start_time, end_time)
      | _, _ => none
    | _, _ => none
  else none

/-- Loop of `icsi_to_rttm` over the `Turn` elements. -/
def icsi_to_rttm (turns : List Turn) : List (ℚ × ℚ) :=
  turns.filterMap icsiTurnInterval?

/-! ### `calculate_overlap.py` -/

/-- Loop body of `get_speakers_from_file`: for each line, `parts[0]` of a
nonempty split is added to the speaker set. -/
def get_speakers_lines (lines : List (List String)) : Finset String :=
  lines.foldl (fun speakers parts =>
    match parts with
    | [] => speakers
    | p :: _ => insert p speakers) ∅

/-- `get_speakers_from_file`: a `FileNotFoundError` prints a diagnostic and
returns `None` (modelled `none`); otherwise the speaker set is returned. -/
def get_speakers_from_file : Option (List (List String)) → Option (Finset String)
  | none => none
  | some lines => some (get_speakers_lines lines)

/-- Upsert into the `defaultdict(list)` mapping speakers to meetings. -/
def addMeeting : List (String × List String) → String → String → List (String × List String)
  | [], spk, mid => [(spk, [mid])]
  | (k, ms) :: rest, spk, mid =>
      if k = spk then (k, ms ++ [mid]) :: rest
      else (k, ms) :: addMeeting rest spk mid

/-- `map_all_speakers_to_meetings`: `none` for a missing corpus directory;
otherwise each file contributes its meeting id to each distinct
participant's meeting list. -/
def map_all_speakers_to_meetings :
    Option (List (String × List String)) → Option (List (String × List String))
  | none => none
  | some files =>
      some (files.foldl
        (fun acc f => (f.2.dedup).foldl (fun a spk => addMeeting a spk f.1) acc) [])

/-- Dictionary lookup `full_speaker_map[speaker]` guarded by membership. -/
def lookupSpeaker (m : List (String × List String)) (spk : String) : Option (List String) :=
  (m.find? (fun p => p.1 == spk)).map (fun p => p.2)

/-- `analyze_overlap`: counts target speakers appearing in more than one
meeting and the percentage they make of the target set; `(0, 0)` when
either argument is empty (Python-falsy). -/
def analyze_overlap (target_speakers : Finset String)
    (full_speaker_map : List (String × List String)) : ℕ × ℚ :=
  if target_speakers = ∅ ∨ full_speaker_map = [] then (0, 0)
  else
    let speakers_with_overlap :=
      (target_speakers.filter
        (fun spk => 1 < ((lookupSpeaker full_speaker_map spk).getD []).length)).card
    let total_target_speakers := target_speakers.card
    if total_target_speakers = 0 then (0, 0)
    else
      (speakers_with_overlap,
        ((speakers_with_overlap : ℚ) / (total_target_speakers : ℚ)) * 100)

/-- `__main__` of `calculate_overlap.py` after argument parsing: `none`
models `sys.exit(1)` on a missing input (speaker file or corpus
directory), `some` the report printed on the success path (implicit exit
status 0). -/
def calculate_overlap_main (target_spk_file : Option (List (List String)))
    (nist_trans_dir : Option (List (String × List String))) : Option (ℕ × ℚ) :=
  match get_speakers_from_file target_spk_file with
  | none => none
  | some target_speakers =>
    match map_all_speakers_to_meetings nist_trans_dir with
    | none => none
    | some full_speaker_map => some (analyze_overlap target_speakers full_speaker_map)

/-! ### `validate_split.py` -/

/-- `get_speakers` of `validate_split.py` (same code as
`get_speakers_from_file`). -/
def get_speakers : Option (List (List String)) → Option (Finset String)
  | none => none
  | some lines => some (get_speakers_lines lines)

/-- `__main__` of `validate_split.py`: the first component is the exit
status (`1` on wrong argument count or a missing file, else `0` via
`sys.exit(0)` after the report); the second is the overlap set whose
emptiness selects the SUCCESS/FAILURE report, `none` when no report is
printed. -/
def validate_split_main (argcOk : Bool)
    (train_spk_file eval_spk_file : Option (List (List String))) :
    ℕ × Option (Finset String) :=
  if !argcOk then (1, none)
  else
    match get_speakers train_spk_file, get_speakers eval_spk_file with
    | some train_speakers, some eval_speakers =>
        (0, some (train_speakers ∩ eval_speakers))
    | _, _ => (1, none)

/-! ### The temporal overlap sweep

Modelled from the spec: the overlap engine (interval ingestion per
recording, event sweep, aggregation) described in sections 2-4 of the
specification is not among the provided source files; the definitions
below follow the specification's algorithm (section 4.2) literally. -/

/-- Modelled from the spec: the numerical tolerance `1e-9` used by the
sweep's gap test. -/
def tol : ℚ := 1 / 1000000000

/-- Modelled from the spec: the sweep state of section 4.2 step 4. -/
structure SweepSt where
  active_count : ℤ
  last_time : ℚ
  union_duration : ℚ
  overlap_duration : ℚ
deriving DecidableEq

/-- Modelled from the spec: one sweep step at an event `(time, delta)`.
With `dt = time - last_time`, when `dt` exceeds the tolerance, `dt` is
attributed to the union when `active_count > 0` and additionally to the
overlap when `active_count > 1`; then the delta is applied and
`last_time` advances. -/
def sweepStep (s : SweepSt) (e : ℚ × ℤ) : SweepSt :=
  let dt := e.1 - s.last_time
  if tol < dt then
    ⟨s.active_count + e.2, e.1,
      s.union_duration + (if 0 < s.active_count then dt else 0),
      s.overlap_duration + (if 1 < s.active_count then dt else 0)⟩
  else
    ⟨s.active_count + e.2, e.1, s.union_duration, s.overlap_duration⟩

/-- Folding the sweep step over an event list. -/
def stepList (s : SweepSt) (l : List (ℚ × ℤ)) : SweepSt := l.foldl sweepStep s

/-- Modelled from the spec: one `+1` event at each interval's start and
one `-1` event at each interval's end. -/
def eventsOf (intervals : List (ℚ × ℚ)) : List (ℚ × ℤ) :=
  intervals.flatMap (fun iv => [(iv.1, 1), (iv.2, -1)])

/-- Events are ordered by time alone (spec tie-break policy: no tie-break
beyond numeric time ordering). -/
def timeLe (a b : ℚ × ℤ) : Prop := a.1 ≤ b.1

instance : DecidableRel timeLe := fun a b => inferInstanceAs (Decidable (a.1 ≤ b.1))

instance : IsTotal (ℚ × ℤ) timeLe := ⟨fun a b => le_total a.1 b.1⟩

instance : IsTrans (ℚ × ℤ) timeLe := ⟨fun _ _ _ h₁ h₂ => le_trans h₁ h₂⟩

/-- Modelled from the spec: sorting the events by time ascending. -/
def sortEvents (l : List (ℚ × ℤ)) : List (ℚ × ℤ) := l.insertionSort timeLe

/-- Modelled from the spec: the sweep over an already-sorted event list;
`last_time` starts at the first event's time, and the empty collection
yields `(0, 0)`. -/
def sweepRun (l : List (ℚ × ℤ)) : ℚ × ℚ :=
  match l with
  | [] => (0, 0)
  | e :: _ =>
    let fin := stepList ⟨0, e.1, 0, 0⟩ l
    (fin.union_duration, fin.overlap_duration)

/-- Modelled from the spec: the per-recording overlap sweep, returning
`(union_duration, overlap_duration)`. -/
def overlap_sweep (intervals : List (ℚ × ℚ)) : ℚ × ℚ :=
  sweepRun (sortEvents (eventsOf intervals))

/-- Modelled from the spec: the running totals `(speech_seconds,
overlap_seconds)` summed across all recordings. -/
def aggregateTotals (recordings : List (List (ℚ × ℚ))) : ℚ × ℚ :=
  recordings.foldl
    (fun t r => (t.1 + (overlap_sweep r).1, t.2 + (overlap_sweep r).2)) (0, 0)

/-- Modelled from the spec: the summary `(total_speech_seconds,
total_overlap_seconds, overlap_percentage)`; the percentage is
`100 * overlap / speech` when `speech > 0` and `0` otherwise. -/
def aggregate_report (recordings : List (List (ℚ × ℚ))) : ℚ × ℚ × ℚ :=
  let t := aggregateTotals recordings
  (t.1, t.2, if 0 < t.1 then 100 * t.2 / t.1 else 0)

/-! ### Diagnostic formatting -/

/-- The two fractional digit characters of a `.2f` rendering. -/
def twoDigits (f : ℕ) : String :=
  String.mk [Nat.digitChar (f / 10), Nat.digitChar (f % 10)]

/-- Model of Python's `f"{q:.2f}"` on a nonnegative value: the value is
scaled by 100, rounded to an integer, and printed as integer part, a
dot, and exactly two fractional digits. -/
def formatFix2 (q : ℚ) : String :=
  let n : ℕ := (round (q * 100)).toNat
  Nat.repr (n / 100) ++ "." ++ twoDigits (n % 100)

/-- `format_hours` (plot_dataset_stats.py lines 183-185): seconds are
divided by 3600 and rendered as `f"{hours:.2f} h"`. -/
def format_hours (seconds : ℚ) : String := formatFix2 (seconds / 3600) ++ " h"

/-- The `f"{percent_overlap:.2f}%"` rendering of calculate_overlap.py
line 85. -/
def format_percent (p : ℚ) : String := formatFix2 p ++ "%"

/-! ### Malformation predicates (the record-level failure taxonomy) -/

/-- A raw `segments` line that `read_segments` must skip: wrong field
count or a non-numeric time field. -/
def segLineMalformed (parts : List String) : Prop :=
  match parts with
  | [_, _, start_str, end_str] =>
      parseFloat? start_str = none ∨ parseFloat? end_str = none
  | _ => True

/-- A `Turn` that `icsi_to_rttm` must skip: a missing (Python-falsy)
attribute or a non-numeric time field. -/
def turnMalformed (t : Turn) : Prop :=
  (truthy t.startTime && truthy t.endTime && truthy t.speaker) = false ∨
  (∃ ss es, t.startTime = some ss ∧ t.endTime = some es ∧
    (parseFloat? ss = none ∨ parseFloat? es = none))

/-! ### Sweep helper definitions used by the order-independence proof -/

/-- Sum of the event deltas of a list. -/
def deltaSum (l : List (ℚ × ℤ)) : ℤ := (l.map Prod.snd).sum

/-- Net effect of a nonempty block of events that all carry the same
time `τ` and whose deltas sum to `d`. -/
def blockOut (s : SweepSt) (τ : ℚ) (d : ℤ) : SweepSt :=
  if tol < τ - s.last_time then
    ⟨s.active_count + d, τ,
      s.union_duration + (if 0 < s.active_count then τ - s.last_time else 0),
      s.overlap_duration + (if 1 < s.active_count then τ - s.last_time else 0)⟩
  else
    ⟨s.active_count + d, τ, s.union_duration, s.overlap_duration⟩

/-! ## Helper lemmas -/

theorem amiSeg_pos {spk : Option String} {seg : Option String × Option String}
    {p : ℚ × ℚ} (h : amiSegInterval? spk seg = some p) : p.1 < p.2 := by
  obtain ⟨ss?, es?⟩ := seg
  rcases ss? with _ | ss
  · simp [amiSegInterval?] at h
  rcases es? with _ | es
  · simp [amiSegInterval?] at h
  rcases hps : parseFloat? ss with _ | st
  · simp [amiSegInterval?, hps] at h
  rcases hpe : parseFloat? es with _ | en
  · simp [amiSegInterval?, hps, hpe] at h
  by_cases hle : en ≤ st
  · simp [amiSegInterval?, hps, hpe, hle] at h
  · rcases spk with _ | sp
    · simp [amiSegInterval?, hps, hpe, hle] at h
    · simp only [amiSegInterval?, hps, hpe, if_neg hle, Option.some.injEq] at h
      rw [← h]
      exact lt_of_not_le hle

theorem icsiTurn_pos {t : Turn} {p : ℚ × ℚ}
    (h : icsiTurnInterval? t = some p) : p.1 < p.2 := by
  unfold icsiTurnInterval? at h
  by_cases hb : (truthy t.startTime && truthy t.endTime && truthy t.speaker) = true
  · rw [if_pos hb] at h
    rcases hst : t.startTime with _ | ss
    · rw [hst] at h; exact Option.noConfusion h
    rcases het : t.endTime with _ | es
    · rw [hst, het] at h; exact Option.noConfusion h
    rw [hst, het] at h
    dsimp only at h
    rcases hps : parseFloat? ss with _ | st
    · rw [hps] at h; exact Option.noConfusion h
    rcases hpe : parseFloat? es with _ | en
    · rw [hps, hpe] at h; exact Option.noConfusion h
    rw [hps, hpe] at h
    dsimp only at h
    by_cases hd : en - st ≤ 0
    · rw [if_pos hd] at h; exact Option.noConfusion h
    · rw [if_neg hd] at h
      have hpe2 : p = (st, en) := (Option.some.injEq _ _ ▸ h).symm
      rw [hpe2]
      have : (0:ℚ) < en - st := lt_of_not_le hd
      simpa using sub_pos.mp this
  · rw [if_neg hb] at h; exact Option.noConfusion h

theorem parseSegLine_malformed {parts : List String}
    (h : segLineMalformed parts) : parseSegLine parts = none := by
  rcases parts with _ | ⟨a, _ | ⟨b, _ | ⟨c, _ | ⟨d, _ | ⟨e, rest⟩⟩⟩⟩⟩ <;>
    try simp [parseSegLine]
  rcases h with h | h <;> rcases hc : parseFloat? c with _ | cv <;>
    simp [parseSegLine, hc, h] at h ⊢

theorem icsiTurn_malformed {t : Turn} (h : turnMalformed t) :
    icsiTurnInterval? t = none := by
  by_cases hb : (truthy t.startTime && truthy t.endTime && truthy t.speaker) = true
  · rcases h with h | ⟨ss, es, hst, het, hp⟩
    · rw [h] at hb; exact absurd hb (by simp)
    · unfold icsiTurnInterval?
      rw [if_pos hb, hst, het]
      dsimp only
      rcases hp with hp | hp
      · rw [hp]
      · rcases hps : parseFloat? ss with _ | st
        · rfl
        · rw [hp]
  · unfold icsiTurnInterval?
    rw [if_neg hb]

/-! ## Claims C1-C4 (ingestion and error handling) -/

/-- C1 counterexample: a four-field record whose parsed end time `3` is
less than or equal to its parsed start time `5` is NOT skipped by
`read_segments` ingestion — it enters the returned segment collection. -/
theorem read_segments_keeps_nonpositive_duration :
    read_segments_lines [["u1", "r1", "5", "3"]] = [("u1", "r1", (5:ℚ), 3)] ∧
    (3:ℚ) ≤ 5 := by
  constructor
  · decide
  · norm_num

/-- C1 (amended): the RTTM converters' ingestion loops (`ami_to_rttm`,
`icsi_to_rttm`) skip every record with `end <= start`, so every interval
they emit has strictly positive duration; `read_segments` of
plot_dataset_stats.py performs no such filter. -/
theorem converters_skip_nonpositive_duration :
    (∀ (spk : Option String) (segs : List (Option String × Option String))
        (p : ℚ × ℚ), p ∈ ami_to_rttm spk segs → p.1 < p.2) ∧
    (∀ (turns : List Turn) (p : ℚ × ℚ), p ∈ icsi_to_rttm turns → p.1 < p.2) := by
  constructor
  · intro spk segs p hp
    obtain ⟨seg, _, hsome⟩ := List.mem_filterMap.mp hp
    exact amiSeg_pos hsome
  · intro turns p hp
    obtain ⟨t, _, hsome⟩ := List.mem_filterMap.mp hp
    exact icsiTurn_pos hsome

/-- C1 witness: the amended theorem applied to a concrete emitted
interval. -/
theorem converters_skip_nonpositive_duration_witness :
    (((1:ℚ), (2:ℚ)) ∈ ami_to_rttm (some "A") [(some "1", some "2")]) ∧
    (1:ℚ) < 2 :=
  ⟨by decide,
   converters_skip_nonpositive_duration.1 (some "A") [(some "1", some "2")]
     ((1:ℚ), (2:ℚ)) (by decide)⟩

/-- C2: a malformed record (wrong field count or non-numeric time for
`read_segments`; missing attribute or non-numeric time for
`icsi_to_rttm`) is skipped exactly, the remaining records are processed
unchanged, and the output reflects only the valid records. -/
theorem malformed_records_are_skipped :
    (∀ (xs ys : List (List String)) (parts : List String),
        segLineMalformed parts →
        read_segments_lines (xs ++ parts :: ys) = read_segments_lines (xs ++ ys)) ∧
    (∀ (ts us : List Turn) (t : Turn), turnMalformed t →
        icsi_to_rttm (ts ++ t :: us) = icsi_to_rttm (ts ++ us)) := by
  constructor
  · intro xs ys parts h
    simp [read_segments_lines, List.filterMap_append, List.filterMap_cons,
      parseSegLine_malformed h]
  · intro ts us t h
    simp [icsi_to_rttm, List.filterMap_append, List.filterMap_cons,
      icsiTurn_malformed h]

/-- C2 witness: a record with a non-numeric start time among valid
records is dropped and the run continues. -/
theorem malformed_records_are_skipped_witness :
    segLineMalformed ["u1", "r1", "abc", "1"] ∧
    read_segments_lines ([["u2", "r1", "0", "1"]] ++ ["u1", "r1", "abc", "1"] :: [["u3", "r1", "2", "3"]])
      = read_segments_lines ([["u2", "r1", "0", "1"]] ++ [["u3", "r1", "2", "3"]]) :=
  ⟨Or.inl (by decide),
   malformed_records_are_skipped.1 [["u2", "r1", "0", "1"]] [["u3", "r1", "2", "3"]]
     ["u1", "r1", "abc", "1"] (Or.inl (by decide))⟩

/-- C3 counterexample: `read_segments` on a missing segments file
silently returns the empty collection, indistinguishable from a
readable empty file — no failure is reported to the caller. -/
theorem read_segments_missing_file_is_silent :
    read_segments none = read_segments (some []) ∧ read_segments none = [] :=
  ⟨rfl, rfl⟩

/-- C3 (amended): `calculate_overlap.py` and `validate_split.py` report
a missing input file (a `None` result and exit status 1), but the table
readers of `plot_dataset_stats.py` silently return empty collections on
a missing path. -/
theorem missing_input_reporting :
    get_speakers_from_file none = none ∧
    (∀ c, calculate_overlap_main none c = none) ∧
    (∀ e, (validate_split_main true none e).1 = 1) ∧
    (∀ t, (validate_split_main true t none).1 = 1) ∧
    read_segments none = [] := by
  refine ⟨rfl, fun c => rfl, fun e => rfl, fun t => ?_, rfl⟩
  cases t <;> rfl

/-- C4: with no valid data at all the run completes with the all-zero
summary: the spec-modelled aggregation returns `(0, 0, 0)` on an empty
recording collection, its percentage is `0` (without dividing) whenever
the speech total is zero, `analyze_overlap` returns `(0, 0)` on empty
input, and the `calculate_overlap` main path on an empty (but readable)
speaker file succeeds with the `(0, 0)` report. -/
theorem empty_input_zero_summary :
    aggregate_report [] = (0, 0, 0) ∧
    (∀ recs, (aggregateTotals recs).1 = 0 → (aggregate_report recs).2.2 = 0) ∧
    (∀ m, analyze_overlap ∅ m = (0, 0)) ∧
    (∀ t, analyze_overlap t [] = (0, 0)) ∧
    (∀ c, calculate_overlap_main (some []) (some c) = some (0, 0)) := by
  refine ⟨?_, ?_, ?_, ?_, ?_⟩
  · simp [aggregate_report, aggregateTotals]
  · intro recs h
    simp [aggregate_report, h]
  · intro m
    simp [analyze_overlap]
  · intro t
    simp [analyze_overlap]
  · intro c
    simp [calculate_overlap_main, get_speakers_from_file, get_speakers_lines,
      map_all_speakers_to_meetings, analyze_overlap]

/-- C4 witness: the zero-speech branch applied to the empty recording
collection. -/
theorem empty_input_zero_summary_witness :
    (aggregateTotals []).1 = 0 ∧ (aggregate_report []).2.2 = 0 :=
  ⟨rfl, empty_input_zero_summary.2.1 [] rfl⟩

/-! ## Claims C9-C10 (speaker-set analyses) -/

/-- C9: when both spk2utt files are readable the split validator always
exits with status 0 — the overlap report (SUCCESS/FAILURE) is produced
but does not affect the status — and it exits with status 1 exactly when
the argument count is wrong or one of the input files is missing. -/
theorem validate_split_exit_status :
    (∀ t e, (validate_split_main true (some t) (some e)).1 = 0) ∧
    (∀ t e, (validate_split_main true (some t) (some e)).2
        = some (get_speakers_lines t ∩ get_speakers_lines e)) ∧
    (∀ (a : Bool) t e, (validate_split_main a t e).1 = 1 ↔
        (a = false ∨ t = none ∨ e = none)) := by
  refine ⟨fun t e => rfl, fun t e => rfl, ?_⟩
  intro a t e
  rcases a <;> rcases t with _ | t <;> rcases e with _ | e <;>
    simp [validate_split_main, get_speakers]

/-- C10: `analyze_overlap` returns a count of overlapping speakers at
most the number of target speakers, and a percentage within `[0, 100]`;
on an empty target set or an empty speaker map it returns `(0, 0)`. -/
theorem analyze_overlap_bounds :
    ∀ (t : Finset String) (m : List (String × List String)),
      (analyze_overlap t m).1 ≤ t.card ∧
      0 ≤ (analyze_overlap t m).2 ∧
      (analyze_overlap t m).2 ≤ 100 ∧
      analyze_overlap ∅ m = (0, 0) ∧
      analyze_overlap t [] = (0, 0) := by
  intro t m
  refine ⟨?_, ?_, ?_, by simp [analyze_overlap], by simp [analyze_overlap]⟩ <;>
  · unfold analyze_overlap
    by_cases h : t = ∅ ∨ m = []
    · simp [h]
    · rw [if_neg h]
      have hne : t ≠ ∅ := fun hh => h (Or.inl hh)
      have hcard : t.card ≠ 0 := by
        simpa [Finset.card_eq_zero] using hne
      rw [if_neg hcard]
      have hfilter : (t.filter
          (fun spk => 1 < ((lookupSpeaker m spk).getD []).length)).card ≤ t.card :=
        Finset.card_filter_le t _
      have hpos : (0:ℚ) < (t.card : ℚ) := by
        exact_mod_cast Nat.pos_of_ne_zero hcard
      first
      | exact hfilter
      | positivity
      | · have hdiv : ((t.filter
              (fun spk => 1 < ((lookupSpeaker m spk).getD []).length)).card : ℚ)
              / (t.card : ℚ) ≤ 1 := by
            rw [div_le_one hpos]
            exact_mod_cast hfilter
          calc ((t.filter
              (fun spk => 1 < ((lookupSpeaker m spk).getD []).length)).card : ℚ)
              / (t.card : ℚ) * 100 ≤ 1 * 100 :=
                mul_le_mul_of_nonneg_right hdiv (by norm_num)
            _ = 100 := by norm_num

/-! ## Claim C8 (diagnostic formatting) -/

/-- C8: the diagnostic presentation divides second totals by 3600 for the
hour figures, and both the hour figures and the percentage are rendered
with exactly two digits after the decimal point; the rendered integer
`n` of hundredths is within one half of the exact scaled value. -/
theorem report_two_decimal_format :
    ∀ s q : ℚ, 0 ≤ q →
      format_hours s = formatFix2 (s / 3600) ++ " h" ∧
      format_percent q = formatFix2 q ++ "%" ∧
      ∃ n : ℕ, |q * 100 - (n : ℚ)| ≤ 1 / 2 ∧
        formatFix2 q = Nat.repr (n / 100) ++ "." ++ twoDigits (n % 100) ∧
        (twoDigits (n % 100)).length = 2 ∧ n % 100 < 100 := by
  intro s q hq
  refine ⟨rfl, rfl, (round (q * 100)).toNat, ?_, rfl, rfl, Nat.mod_lt _ (by norm_num)⟩
  have h100 : (0:ℚ) ≤ q * 100 := by positivity
  have hround : (0:ℤ) ≤ round (q * 100) := by
    rw [round_eq]
    exact Int.floor_nonneg.mpr (by linarith)
  have hcast : (((round (q * 100)).toNat : ℕ) : ℚ) = ((round (q * 100) : ℤ) : ℚ) := by
    exact_mod_cast congrArg (fun z : ℤ => (z : ℚ)) (Int.toNat_of_nonneg hround)
  rw [hcast]
  exact abs_sub_round (q * 100)

/-- C8 witness: the formatting theorem applied at 7200 seconds and a
25-percent value. -/
theorem report_two_decimal_format_witness :
    (0:ℚ) ≤ 25 ∧
    (format_hours 7200 = formatFix2 ((7200:ℚ) / 3600) ++ " h" ∧
     format_percent 25 = formatFix2 25 ++ "%" ∧
     ∃ n : ℕ, |(25:ℚ) * 100 - (n : ℚ)| ≤ 1 / 2 ∧
       formatFix2 25 = Nat.repr (n / 100) ++ "." ++ twoDigits (n % 100) ∧
       (twoDigits (n % 100)).length = 2 ∧ n % 100 < 100) :=
  ⟨by norm_num, report_two_decimal_format 7200 25 (by norm_num)⟩

/-! ## Sweep invariants (claim C5) -/

theorem tol_pos : (0:ℚ) < tol := by norm_num [tol]

theorem sweepStep_inv {s : SweepSt} (e : ℚ × ℤ)
    (h0 : 0 ≤ s.overlap_duration)
    (h1 : s.overlap_duration ≤ s.union_duration) :
    0 ≤ (sweepStep s e).overlap_duration ∧
    (sweepStep s e).overlap_duration ≤ (sweepStep s e).union_duration := by
  unfold sweepStep
  by_cases hdt : tol < e.1 - s.last_time
  · have hdt0 : (0:ℚ) ≤ e.1 - s.last_time := le_of_lt (lt_trans tol_pos hdt)
    rw [if_pos hdt]
    dsimp only
    constructor
    · have : (0:ℚ) ≤ (if 1 < s.active_count then e.1 - s.last_time else 0) := by
        split <;> simp [hdt0]
      linarith
    · by_cases ha : 1 < s.active_count
      · have ha0 : 0 < s.active_count := lt_trans one_pos ha |>.trans_le (le_refl _) |>.trans_le (le_refl _)
        rw [if_pos ha, if_pos (lt_trans Int.zero_lt_one ha)]
        linarith
      · rw [if_neg ha]
        have : (0:ℚ) ≤ (if 0 < s.active_count then e.1 - s.last_time else 0) := by
          split <;> simp [hdt0]
        linarith
  · rw [if_neg hdt]
    exact ⟨h0, h1⟩

theorem stepList_inv : ∀ (l : List (ℚ × ℤ)) (s : SweepSt),
    0 ≤ s.overlap_duration → s.overlap_duration ≤ s.union_duration →
    0 ≤ (stepList s l).overlap_duration ∧
    (stepList s l).overlap_duration ≤ (stepList s l).union_duration := by
  intro l
  induction l with
  | nil => intro s h0 h1; exact ⟨h0, h1⟩
  | cons e rest ih =>
    intro s h0 h1
    have hstep := sweepStep_inv e h0 h1
    simpa [stepList, List.foldl_cons] using ih (sweepStep s e) hstep.1 hstep.2

theorem overlap_sweep_inv (iv : List (ℚ × ℚ)) :
    0 ≤ (overlap_sweep iv).2 ∧ (overlap_sweep iv).2 ≤ (overlap_sweep iv).1 := by
  unfold overlap_sweep sweepRun
  rcases hsl : sortEvents (eventsOf iv) with _ | ⟨e, rest⟩
  · norm_num
  · exact stepList_inv (e :: rest) ⟨0, e.1, 0, 0⟩ le_rfl le_rfl

/-- C5: per recording the sweep satisfies
`union_duration >= overlap_duration >= 0`, and the running totals across
any collection of recordings satisfy
`0 <= overlap_seconds <= speech_seconds`. -/
theorem sweep_totals_invariant :
    (∀ iv : List (ℚ × ℚ),
        0 ≤ (overlap_sweep iv).2 ∧ (overlap_sweep iv).2 ≤ (overlap_sweep iv).1) ∧
    (∀ recs : List (List (ℚ × ℚ)),
        0 ≤ (aggregateTotals recs).2 ∧
        (aggregateTotals recs).2 ≤ (aggregateTotals recs).1) := by
  refine ⟨overlap_sweep_inv, ?_⟩
  have key : ∀ (recs : List (List (ℚ × ℚ))) (t : ℚ × ℚ), 0 ≤ t.2 → t.2 ≤ t.1 →
      0 ≤ (recs.foldl
        (fun t r => (t.1 + (overlap_sweep r).1, t.2 + (overlap_sweep r).2)) t).2 ∧
      (recs.foldl
        (fun t r => (t.1 + (overlap_sweep r).1, t.2 + (overlap_sweep r).2)) t).2 ≤
      (recs.foldl
        (fun t r => (t.1 + (overlap_sweep r).1, t.2 + (overlap_sweep r).2)) t).1 := by
    intro recs
    induction recs with
    | nil => intro t h0 h1; exact ⟨h0, h1⟩
    | cons r rest ih =>
      intro t h0 h1
      have hr := overlap_sweep_inv r
      exact ih _ (by dsimp; linarith) (by dsimp; linarith)
  intro recs
  exact key recs (0, 0) le_rfl le_rfl

/-! ## Claim C7 (touching intervals) -/

/-- C7: for the single recording holding exactly the touching intervals
`[0,1)` and `[1,2)` the sweep reports a union of `2.0` and an overlap of
`0.0`: the shared boundary instant contributes no overlap. -/
theorem touching_intervals_no_overlap :
    overlap_sweep [(0, 1), (1, 2)] = (2, 0) := by
  have hev : eventsOf [((0:ℚ), (1:ℚ)), (1, 2)]
      = [((0:ℚ), (1:ℤ)), (1, -1), (1, 1), (2, -1)] := by
    simp [eventsOf]
  have hsort : sortEvents [((0:ℚ), (1:ℤ)), (1, -1), (1, 1), (2, -1)]
      = [((0:ℚ), (1:ℤ)), (1, -1), (1, 1), (2, -1)] :=
    List.Sorted.insertionSort_eq (by decide)
  rw [overlap_sweep, hev, hsort]
  norm_num [sweepRun, stepList, sweepStep, tol, List.foldl]

/-! ## Order independence of the sweep (claim C6)

Key argument: between two events at the same time the sweep attributes a
duration of zero, so a block of equal-time events contributes only the
sum of its deltas, independently of the order inside the block. -/

theorem stepList_append (s : SweepSt) (a b : List (ℚ × ℤ)) :
    stepList s (a ++ b) = stepList (stepList s a) b := by
  simp [stepList]

theorem deltaSum_cons (e : ℚ × ℤ) (m : List (ℚ × ℤ)) :
    deltaSum (e :: m) = e.2 + deltaSum m := by
  simp [deltaSum]

theorem stepList_block_tail :
    ∀ (m : List (ℚ × ℤ)) (s : SweepSt) (τ : ℚ), s.last_time = τ →
      (∀ e ∈ m, e.1 = τ) →
      stepList s m =
        ⟨s.active_count + deltaSum m, τ, s.union_duration, s.overlap_duration⟩ := by
  intro m
  induction m with
  | nil =>
    intro s τ hlast _
    obtain ⟨a, lt, u, o⟩ := s
    simp only [stepList, List.foldl_nil, deltaSum, List.map_nil, List.sum_nil,
      add_zero] at hlast ⊢
    rw [hlast]
  | cons e m ih =>
    intro s τ hlast hall
    have he : e.1 = τ := hall e (List.mem_cons_self e m)
    have hdt : ¬ tol < e.1 - s.last_time := by
      rw [he, hlast, sub_self]
      exact not_lt_of_le (le_of_lt tol_pos)
    have hstep : sweepStep s e =
        ⟨s.active_count + e.2, e.1, s.union_duration, s.overlap_duration⟩ := by
      unfold sweepStep
      rw [if_neg hdt]
    have : stepList s (e :: m) = stepList (sweepStep s e) m := by
      simp [stepList]
    rw [this, hstep,
      ih ⟨s.active_count + e.2, e.1, s.union_duration, s.overlap_duration⟩ τ he
        (fun x hx => hall x (List.mem_cons_of_mem e hx))]
    rw [deltaSum_cons, add_assoc]

theorem stepList_block :
    ∀ (m : List (ℚ × ℤ)) (s : SweepSt) (τ : ℚ), m ≠ [] →
      (∀ e ∈ m, e.1 = τ) →
      stepList s m = blockOut s τ (deltaSum m) := by
  intro m s τ hne hall
  rcases m with _ | ⟨e, m⟩
  · exact absurd rfl hne
  have he : e.1 = τ := hall e (List.mem_cons_self e m)
  have hcons : stepList s (e :: m) = stepList (sweepStep s e) m := by
    simp [stepList]
  rw [hcons]
  by_cases hdt : tol < τ - s.last_time
  · have hstep : sweepStep s e =
        ⟨s.active_count + e.2, τ,
          s.union_duration + (if 0 < s.active_count then τ - s.last_time else 0),
          s.overlap_duration + (if 1 < s.active_count then τ - s.last_time else 0)⟩ := by
      unfold sweepStep
      rw [he, if_pos hdt]
    rw [hstep, stepList_block_tail m _ τ rfl
      (fun x hx => hall x (List.mem_cons_of_mem e hx))]
    unfold blockOut
    rw [if_pos hdt, deltaSum_cons, add_assoc]
  · have hstep : sweepStep s e =
        ⟨s.active_count + e.2, τ, s.union_duration, s.overlap_duration⟩ := by
      unfold sweepStep
      rw [he, if_neg hdt]
    rw [hstep, stepList_block_tail m _ τ rfl
      (fun x hx => hall x (List.mem_cons_of_mem e hx))]
    unfold blockOut
    rw [if_neg hdt, deltaSum_cons, add_assoc]

theorem sorted_head_min {e : ℚ × ℤ} {t : List (ℚ × ℤ)}
    (hs : (e :: t).Sorted timeLe) : ∀ x ∈ e :: t, e.1 ≤ x.1 := by
  intro x hx
  rcases List.mem_cons.mp hx with rfl | hx
  · exact le_refl _
  · exact List.rel_of_sorted_cons hs x hx

theorem dropWhile_time_gt (τ : ℚ) :
    ∀ (l : List (ℚ × ℤ)), l.Sorted timeLe → (∀ x ∈ l, τ ≤ x.1) →
      ∀ x ∈ l.dropWhile (fun e => decide (e.1 = τ)), τ < x.1 := by
  intro l
  induction l with
  | nil => intro _ _ x hx; simp at hx
  | cons a l ih =>
    intro hs hall x hx
    by_cases ha : a.1 = τ
    · rw [List.dropWhile_cons_of_pos (by simpa using ha)] at hx
      exact ih hs.of_cons (fun y hy => hall y (List.mem_cons_of_mem a hy)) x hx
    · rw [List.dropWhile_cons_of_neg (by simpa using ha)] at hx
      have haτ : τ < a.1 :=
        lt_of_le_of_ne (hall a (List.mem_cons_self a l)) (Ne.symm ha)
      rcases List.mem_cons.mp hx with rfl | hx
      · exact haτ
      · exact lt_of_lt_of_le haτ (List.rel_of_sorted_cons hs x hx)

theorem sorted_take_drop_filter (l : List (ℚ × ℤ)) (τ : ℚ)
    (hs : l.Sorted timeLe) (hmin : ∀ x ∈ l, τ ≤ x.1) :
    l.takeWhile (fun e => decide (e.1 = τ)) = l.filter (fun e => decide (e.1 = τ)) ∧
    l.dropWhile (fun e => decide (e.1 = τ)) = l.filter (fun e => !(decide (e.1 = τ))) := by
  have htw : ∀ x ∈ l.takeWhile (fun e => decide (e.1 = τ)), x.1 = τ := by
    intro x hx
    have := List.mem_takeWhile_imp hx
    simpa using this
  have hdw : ∀ x ∈ l.dropWhile (fun e => decide (e.1 = τ)), x.1 ≠ τ := by
    intro x hx
    exact Ne.symm (ne_of_lt (dropWhile_time_gt τ l hs hmin x hx))
  have hsplit := List.takeWhile_append_dropWhile
    (fun e : ℚ × ℤ => decide (e.1 = τ)) l
  constructor
  · conv_rhs => rw [← hsplit]
    rw [List.filter_append,
      List.filter_eq_self.mpr (fun a ha => by simp [htw a ha]),
      List.filter_eq_nil_iff.mpr (fun a ha => by simp [hdw a ha]), List.append_nil]
  · conv_rhs => rw [← hsplit]
    rw [List.filter_append,
      List.filter_eq_nil_iff.mpr (fun a ha => by simp [htw a ha]),
      List.filter_eq_self.mpr (fun a ha => by simp [hdw a ha]), List.nil_append]

theorem stepList_sorted_perm :
    ∀ (n : ℕ) (l₁ l₂ : List (ℚ × ℤ)), l₁.length ≤ n → l₁.Perm l₂ →
      l₁.Sorted timeLe → l₂.Sorted timeLe →
      ∀ s, stepList s l₁ = stepList s l₂ := by
  intro n
  induction n with
  | zero =>
    intro l₁ l₂ hlen hperm _ _ s
    have h1 : l₁ = [] := List.eq_nil_of_length_eq_zero (Nat.le_zero.mp hlen)
    subst h1
    rw [hperm.symm.eq_nil]
  | succ n ih =>
    intro l₁ l₂ hlen hperm hs₁ hs₂ s
    rcases l₁ with _ | ⟨e₁, t₁⟩
    · rw [hperm.symm.eq_nil]
    rcases l₂ with _ | ⟨e₂, t₂⟩
    · exact absurd hperm (by simp)
    set b₁ := (e₁ :: t₁).takeWhile (fun e => decide (e.1 = e₁.1)) with hb₁def
    set r₁ := (e₁ :: t₁).dropWhile (fun e => decide (e.1 = e₁.1)) with hr₁def
    set b₂ := (e₂ :: t₂).takeWhile (fun e => decide (e.1 = e₁.1)) with hb₂def
    set r₂ := (e₂ :: t₂).dropWhile (fun e => decide (e.1 = e₁.1)) with hr₂def
    have hsplit₁ : b₁ ++ r₁ = e₁ :: t₁ :=
      List.takeWhile_append_dropWhile (fun e : ℚ × ℤ => decide (e.1 = e₁.1)) (e₁ :: t₁)
    have hsplit₂ : b₂ ++ r₂ = e₂ :: t₂ :=
      List.takeWhile_append_dropWhile (fun e : ℚ × ℤ => decide (e.1 = e₁.1)) (e₂ :: t₂)
    have hmin₁ : ∀ x ∈ e₁ :: t₁, e₁.1 ≤ x.1 := sorted_head_min hs₁
    have hmin₂ : ∀ x ∈ e₂ :: t₂, e₁.1 ≤ x.1 := fun x hx =>
      hmin₁ x (hperm.mem_iff.mpr hx)
    have hf₁ := sorted_take_drop_filter (e₁ :: t₁) e₁.1 hs₁ hmin₁
    have hf₂ := sorted_take_drop_filter (e₂ :: t₂) e₁.1 hs₂ hmin₂
    have hbperm : b₁.Perm b₂ := by
      rw [hb₁def, hb₂def, hf₁.1, hf₂.1]
      exact hperm.filter _
    have hrperm : r₁.Perm r₂ := by
      rw [hr₁def, hr₂def, hf₁.2, hf₂.2]
      exact hperm.filter _
    have hb₁ne : b₁ ≠ [] := by
      rw [hb₁def, List.takeWhile_cons_of_pos (by simp)]
      simp
    have hb₂ne : b₂ ≠ [] := fun h => hb₁ne ((h ▸ hbperm).eq_nil)
    have hball₁ : ∀ x ∈ b₁, x.1 = e₁.1 := by
      intro x hx
      rw [hb₁def] at hx
      simpa using List.mem_takeWhile_imp hx
    have hball₂ : ∀ x ∈ b₂, x.1 = e₁.1 := by
      intro x hx
      rw [hb₂def] at hx
      simpa using List.mem_takeWhile_imp hx
    have hdsum : deltaSum b₁ = deltaSum b₂ := by
      unfold deltaSum
      exact (hbperm.map Prod.snd).sum_eq
    have hsr₁ : r₁.Sorted timeLe :=
      List.Pairwise.sublist (hr₁def ▸ List.dropWhile_sublist _) hs₁
    have hsr₂ : r₂.Sorted timeLe :=
      List.Pairwise.sublist (hr₂def ▸ List.dropWhile_sublist _) hs₂
    have hlenr : r₁.length ≤ n := by
      have hlens := congrArg List.length hsplit₁
      rw [List.length_append, List.length_cons] at hlens
      have hb₁pos : 0 < b₁.length := List.length_pos.mpr hb₁ne
      have ht₁ : t₁.length + 1 ≤ n + 1 := by
        simpa [List.length_cons] using hlen
      omega
    calc stepList s (e₁ :: t₁)
        = stepList (stepList s b₁) r₁ := by
          conv_lhs => rw [← hsplit₁]
          rw [stepList_append]
      _ = stepList (blockOut s e₁.1 (deltaSum b₁)) r₁ := by
          rw [stepList_block b₁ s e₁.1 hb₁ne hball₁]
      _ = stepList (blockOut s e₁.1 (deltaSum b₂)) r₂ := by
          rw [hdsum]
          exact ih r₁ r₂ hlenr hrperm hsr₁ hsr₂ _
      _ = stepList (stepList s b₂) r₂ := by
          rw [stepList_block b₂ s e₁.1 hb₂ne hball₂]
      _ = stepList s (e₂ :: t₂) := by
          conv_rhs => rw [← hsplit₂]
          rw [stepList_append]

/-- C6: the overlap sweep is order-independent — permuting the interval
collection of a recording leaves `(union_duration, overlap_duration)`
unchanged. -/
theorem sweep_order_independence :
    ∀ iv₁ iv₂ : List (ℚ × ℚ), iv₁.Perm iv₂ →
      overlap_sweep iv₁ = overlap_sweep iv₂ := by
  intro iv₁ iv₂ hperm
  unfold overlap_sweep
  have hevp : (eventsOf iv₁).Perm (eventsOf iv₂) := hperm.flatMap_right _
  have hp : (sortEvents (eventsOf iv₁)).Perm (sortEvents (eventsOf iv₂)) :=
    ((List.perm_insertionSort timeLe _).trans hevp).trans
      (List.perm_insertionSort timeLe _).symm
  have hs₁ : (sortEvents (eventsOf iv₁)).Sorted timeLe :=
    List.sorted_insertionSort timeLe _
  have hs₂ : (sortEvents (eventsOf iv₂)).Sorted timeLe :=
    List.sorted_insertionSort timeLe _
  revert hp hs₁ hs₂
  generalize sortEvents (eventsOf iv₁) = L₁
  generalize sortEvents (eventsOf iv₂) = L₂
  intro hp hs₁ hs₂
  rcases L₁ with _ | ⟨e₁, t₁⟩
  · rw [hp.symm.eq_nil]
  rcases L₂ with _ | ⟨e₂, t₂⟩
  · exact absurd hp (by simp)
  have he : e₁.1 = e₂.1 := by
    have h12 : e₁.1 ≤ e₂.1 :=
      sorted_head_min hs₁ e₂ (hp.mem_iff.mpr (List.mem_cons_self e₂ t₂))
    have h21 : e₂.1 ≤ e₁.1 :=
      sorted_head_min hs₂ e₁ (hp.mem_iff.mp (List.mem_cons_self e₁ t₁))
    exact le_antisymm h12 h21
  have hcore := stepList_sorted_perm (e₁ :: t₁).length (e₁ :: t₁) (e₂ :: t₂)
    le_rfl hp hs₁ hs₂ ⟨0, e₁.1, 0, 0⟩
  unfold sweepRun
  dsimp only
  rw [← he, hcore]

/-- C6 witness: the order-independence theorem applied to a concrete
two-interval recording and its transposition. -/
theorem sweep_order_independence_witness :
    overlap_sweep [((0:ℚ), (2:ℚ)), (1, 3)] = overlap_sweep [((1:ℚ), (3:ℚ)), (0, 2)] :=
  sweep_order_independence [((0:ℚ), (2:ℚ)), (1, 3)] [((1:ℚ), (3:ℚ)), (0, 2)]
    (List.Perm.swap ((1:ℚ), (3:ℚ)) ((0:ℚ), (2:ℚ)) [])
